import Mathlib

/-!
Formal model of the `port_sniffer_cli` repository (Rust, tokio).

The repository has three source files:
* `src/port_sniffer_cli/src/main.rs` — the full scanner (channel buffer 100);
* `src/src/main.rs` — a near-identical copy (channel buffer 250);
* `src/port_sniffer/src/main.rs` — argument parsing only, no scanning.

The scanning pipeline (`main` in the first two files) is:
1. clap validates `ip`, `concurrency` (1..=100), `start_port` / `end_port`
   (u16 in [1, 65535]); `main` additionally rejects `start_port > end_port`
   with `exit(1)`;
2. a bounded mpsc channel of capacity `CHANNEL_BUFFER_SIZE` is created;
3. `tokio_stream::iter(start_port..=end_port).for_each_concurrent(concurrency, ...)`
   runs `scan` for every port with at most `concurrency` futures in flight;
4. `scan` awaits `timeout(3s, TcpStream::connect((addr, port)))`; on
   `Ok(Ok(_))` (handshake completed strictly before the 3-second deadline)
   it sends the port into the channel (errors swallowed by `let _ =`),
   and in every case increments the progress bar once;
5. after `for_each_concurrent` completes the sender is dropped, the
   receiver is drained into `open_ports`, the list is sorted and printed
   ("No open ports found." when empty).

The model is a small-step transition system: nondeterministic scheduling
is a list of `Choice`s; the static network is an oracle
`outcome : Nat → ProbeOutcome` fixed per configuration.
-/

namespace PortSniffer

/-- Outcome of `timeout(Duration::from_secs(3), TcpStream::connect((addr, port))).await`
for one port, as pattern-matched in `scan`:
`Open` ↔ `Ok(Ok(_))` (connected strictly before the timeout),
`ClosedErr` ↔ `Ok(Err(_))` (transport error before the timeout),
`TimedOut` ↔ `Err(Elapsed)` (the 3-second timeout fired first). -/
inductive ProbeOutcome
  | Open
  | ClosedErr
  | TimedOut
deriving DecidableEq

/-- `Duration::from_secs(3)` in `scan`: the fixed per-probe connect timeout. -/
def CONNECT_TIMEOUT_SECS : Nat := 3

/-- `const MIN_PORT: u16 = 1;` -/
def MIN_PORT : Nat := 1

/-- `const MAX_PORT: u16 = 65535;` -/
def MAX_PORT : Nat := 65535

/-- `const CHANNEL_BUFFER_SIZE: usize = 100;` in `src/port_sniffer_cli/src/main.rs`. -/
def CHANNEL_BUFFER_SIZE : Nat := 100

/-- `const CHANNEL_BUFFER_SIZE: usize = 250;` in `src/src/main.rs`. -/
def CHANNEL_BUFFER_SIZE_SRC : Nat := 250

/-! ## The `scan` function, per-probe view (for the publication discipline)

`scan(tx, port, addr, pb)` performs, in order: the timed connect, then on
`Ok(Ok(_))` one `tx.send(port).await` whose result is discarded
(`let _ = ...`), then one `pb.inc(1)` unconditionally.  We record its
externally visible effects as a list of events; `channelOk` models whether
the mpsc send succeeds (an `Err` from a closed channel is swallowed). -/

/-- Observable effects of one `scan` invocation. -/
inductive ScanEvent
  | ResultSent (port : Nat)
  | ResultSendFailed (port : Nat)
  | ProgressInc
deriving DecidableEq

/-- Event trace of `scan` for one port, given the connect outcome `r` and
whether the channel accepted the send (`channelOk`).  Mirrors the body of
`scan` in `src/port_sniffer_cli/src/main.rs` lines 52–61. -/
def scanEvents (port : Nat) (r : ProbeOutcome) (channelOk : Bool) : List ScanEvent :=
  (match r with
    | ProbeOutcome.Open =>
      if channelOk then [ScanEvent.ResultSent port] else [ScanEvent.ResultSendFailed port]
    | _ => [])
  ++ [ScanEvent.ProgressInc]

/-! ## Argument layer (clap value parsers + the `start_port > end_port` check) -/

/-- Rust `x.parse::<u16>()`: digits only, value must fit in `u16`. -/
def parseU16 (x : String) : Option Nat :=
  match x.toNat? with
  | some v => if v ≤ 65535 then some v else none
  | none => none

/-- The concurrency value parser closure (lines 85–92): `x.parse::<usize>()`
then `(1..=100).contains(&val)`. -/
def parseConcurrency (x : String) : Except String Nat :=
  match x.toNat? with
  | none => Except.error ("`" ++ x ++ "` is not a number")
  | some val =>
    if 1 ≤ val && val ≤ 100 then Except.ok val
    else Except.error "Concurrency must be between 1 and 100"

/-- The start/end port value parser closures (lines 99–107 / 114–122):
`x.parse::<u16>()` then reject `val < MIN_PORT || val > MAX_PORT`. -/
def parsePort (x : String) : Except String Nat :=
  match parseU16 x with
  | none => Except.error ("`" ++ x ++ "` is not a valid port")
  | some val =>
    if val < MIN_PORT || val > MAX_PORT then
      Except.error ("Port must be between " ++ toString MIN_PORT ++ " and " ++ toString MAX_PORT)
    else Except.ok val

/-- The validated record handed to the core (spec §6). -/
structure CliArgs where
  concurrency : Nat
  startPort : Nat
  endPort : Nat
deriving DecidableEq

/-- The whole argument layer of `main` (lines 69–136): clap runs the three
value parsers (a failure exits with clap's code 2), `ipOk` abstracts
whether the positional `ip` parses as an `IpAddr`; then `main` itself
rejects `start_port > end_port` with `exit(1)`.  `Except.error code` is a
non-zero process exit before any probe starts; `Except.ok` hands the
parsed values to the pipeline unmodified. -/
def frontend (ipOk : Bool) (concStr spStr epStr : String) : Except Nat CliArgs :=
  if ipOk then
    match parseConcurrency concStr, parsePort spStr, parsePort epStr with
    | Except.ok c, Except.ok sp, Except.ok ep =>
      if sp > ep then Except.error 1 else Except.ok ⟨c, sp, ep⟩
    | _, _, _ => Except.error 2
  else Except.error 2

/-! ## The scanning pipeline as a transition system

`for_each_concurrent(concurrency, ...)` keeps at most `C` `scan` futures
in flight over the stream `start_port..=end_port`; each future awaits the
timed connect, then (on `Open`) awaits `tx.send(port)` on the bounded
channel — the send suspends while the channel holds `cap` messages — and
finally increments the progress counter.  The receiver is drained only
after `for_each_concurrent` returns.  Scheduling is nondeterministic: a
run is driven by an arbitrary list of `Choice`s, and a disabled choice
leaves the state unchanged (a stutter). -/

/-- Phase of one in-flight `scan` future: awaiting the timed connect, or
(open port) awaiting `tx.send(port).await` on the bounded channel. -/
inductive Stage
  | connecting
  | sending
deriving DecidableEq

/-- Scan configuration: port range `[s, e]`, concurrency limit `C`
(`for_each_concurrent` argument), channel capacity `cap`
(`CHANNEL_BUFFER_SIZE`), and the static target: `outcome p` is what the
timed connect to `(addr, p)` returns. -/
structure Cfg where
  s : Nat
  e : Nat
  C : Nat
  cap : Nat
  outcome : Nat → ProbeOutcome

/-- Number of ports in the inclusive range, `end_port - start_port + 1`. -/
def Cfg.total (cfg : Cfg) : Nat := cfg.e + 1 - cfg.s

/-- The stream `start_port..=end_port` in ascending order. -/
def Cfg.ports (cfg : Cfg) : List Nat := List.range' cfg.s cfg.total

/-- Whether the timed connect to port `p` succeeds strictly before the
3-second timeout (the `Ok(Ok(_))` branch of `scan`). -/
def Cfg.isOpen (cfg : Cfg) (p : Nat) : Bool := decide (cfg.outcome p = ProbeOutcome.Open)

/-- Ports of the range whose probe outcome is `Open`, in ascending order. -/
def Cfg.openPorts (cfg : Cfg) : List Nat := cfg.ports.filter cfg.isOpen

/-- Pipeline state.  `pending`: ports the stream has not yet yielded;
`inflight`: the `scan` futures currently driven by `for_each_concurrent`;
`buffer`: messages sitting in the mpsc channel (FIFO, receiver not yet
draining); `done`: completed probes = progress-bar position; `launched`:
history of ports admitted so far, in admission order (instrumentation
only — it records events and influences nothing). -/
structure State where
  pending : List Nat
  inflight : List (Nat × Stage)
  buffer : List Nat
  done : Nat
  launched : List Nat
deriving DecidableEq

/-- Initial state: full range pending, nothing running, channel empty. -/
def Cfg.init (cfg : Cfg) : State :=
  { pending := cfg.ports, inflight := [], buffer := [], done := 0, launched := [] }

/-- One scheduler decision: admit the next port from the stream, let probe
`i`'s timed connect resolve, or let probe `i`'s pending channel send
complete. -/
inductive Choice
  | launch
  | resolve (i : Nat)
  | send (i : Nat)

/-- One small step.  A choice whose guard fails (no pending port, window
full, index not in the matching stage, channel full) stutters.
* `launch`: `for_each_concurrent` polls the stream only while fewer than
  `C` futures are in flight; the new future starts at `connecting`.
* `resolve i`: probe `i`'s timed connect returns `outcome p`; on `Open`
  the future moves to `sending`, otherwise it finishes (`pb.inc(1)`).
* `send i`: probe `i`'s `tx.send(port)` completes only while the channel
  holds fewer than `cap` messages (a bounded `mpsc::channel(cap)` send
  suspends on a full buffer, and nothing drains the receiver before
  `for_each_concurrent` returns); the port is enqueued and the future
  finishes (`pb.inc(1)`). -/
def step (cfg : Cfg) (st : State) : Choice → State
  | Choice.launch =>
    match st.pending with
    | [] => st
    | p :: rest =>
      if st.inflight.length < cfg.C then
        { st with pending := rest
                  inflight := st.inflight ++ [(p, Stage.connecting)]
                  launched := st.launched ++ [p] }
      else st
  | Choice.resolve i =>
    match st.inflight[i]? with
    | some (p, Stage.connecting) =>
      match cfg.outcome p with
      | ProbeOutcome.Open => { st with inflight := st.inflight.set i (p, Stage.sending) }
      | _ => { st with inflight := st.inflight.eraseIdx i, done := st.done + 1 }
    | _ => st
  | Choice.send i =>
    match st.inflight[i]? with
    | some (p, Stage.sending) =>
      if st.buffer.length < cfg.cap then
        { st with inflight := st.inflight.eraseIdx i
                  buffer := st.buffer ++ [p]
                  done := st.done + 1 }
      else st
    | _ => st

/-- Run a schedule from a state. -/
def run (cfg : Cfg) (cs : List Choice) (st : State) : State :=
  cs.foldl (step cfg) st

/-- States some schedule can produce from the initial state. -/
def Reachable (cfg : Cfg) (st : State) : Prop :=
  ∃ cs : List Choice, run cfg cs cfg.init = st

/-- `for_each_concurrent` has returned: the stream is exhausted and every
admitted future has completed.  Only then does `main` drop `tx` and start
draining `rx`. -/
def Finished (st : State) : Prop :=
  st.pending = [] ∧ st.inflight = []

instance (st : State) : Decidable (Finished st) := by
  unfold Finished; infer_instance

/-- What the drain-and-sort epilogue of `main` produces from a finished
state: `rx` yields the buffered messages, then `open_ports.sort()`. -/
def finalResult (st : State) : List Nat :=
  st.buffer.insertionSort (· ≤ ·)

/-- The display epilogue of `main` (lines 183–190): "No open ports found."
for an empty list, otherwise a header and one line per port. -/
def displayLines (openPorts : List Nat) : List String :=
  if openPorts.isEmpty then ["No open ports found."]
  else "Open ports: " :: openPorts.map (fun p => toString p)

/-! ## Invariants of the pipeline -/

/-- Inductive invariant: holds in the initial state and is preserved by
every step.
* `window`: at most `C` probes are in flight (`for_each_concurrent`);
* `bufferBound`: the channel never holds more than `cap` messages;
* `split`: admitted ports followed by pending ports are exactly the range,
  in order — each port is admitted at most once, in ascending order;
* `completedCount`: progress count plus in-flight probes equals admitted
  probes;
* `sendingOpen`: a probe blocked on `tx.send` had an `Open` outcome;
* `bufferOpen`: only open ports are ever sent into the channel;
* `openCount`: for every open port, its occurrences in pending + in-flight
  + buffered positions match its occurrences in the range (no open port is
  lost or duplicated). -/
structure Inv (cfg : Cfg) (st : State) : Prop where
  window : st.inflight.length ≤ cfg.C
  bufferBound : st.buffer.length ≤ cfg.cap
  split : st.launched ++ st.pending = cfg.ports
  completedCount : st.done + st.inflight.length = st.launched.length
  sendingOpen : ∀ pr ∈ st.inflight, pr.2 = Stage.sending → cfg.isOpen pr.1 = true
  bufferOpen : ∀ x ∈ st.buffer, cfg.isOpen x = true
  openCount : ∀ x, cfg.isOpen x = true →
    st.pending.count x + (st.inflight.map Prod.fst).count x + st.buffer.count x
      = cfg.ports.count x

theorem inv_init (cfg : Cfg) : Inv cfg cfg.init := by
  refine ⟨?_, ?_, ?_, ?_, ?_, ?_, ?_⟩ <;> simp [Cfg.init]

theorem inv_launch (cfg : Cfg) (st : State) (h : Inv cfg st) :
    Inv cfg (step cfg st Choice.launch) := by
  cases hp : st.pending with
  | nil => simpa [step, hp] using h
  | cons p rest =>
    by_cases hC : st.inflight.length < cfg.C
    · have hs := h.split
      rw [hp] at hs
      have hc := h.completedCount
      have ho := h.openCount
      refine ⟨?_, ?_, ?_, ?_, ?_, ?_, ?_⟩ <;>
        simp only [step, hp, if_pos hC]
      · simp only [List.length_append, List.length_cons, List.length_nil]
        omega
      · exact h.bufferBound
      · simpa [List.append_assoc] using hs
      · simp only [List.length_append, List.length_cons, List.length_nil]
        omega
      · intro pr hpr hsend
        rcases List.mem_append.mp hpr with hm | hm
        · exact h.sendingOpen pr hm hsend
        · simp only [List.mem_singleton] at hm
          subst hm
          simp at hsend
      · exact h.bufferOpen
      · intro x hx
        have hox := ho x hx
        rw [hp] at hox
        by_cases hxp : x = p <;>
          simp only [List.map_append, List.map_cons, List.map_nil, List.count_append,
            List.count_cons, List.count_nil, List.count_singleton, hxp] at hox ⊢ <;>
          simp_all <;> omega
    · simpa [step, hp, if_neg hC] using h

/-- Decomposition of the in-flight list at a defined index. -/
theorem inflight_decomp {l : List (Nat × Stage)} {i : Nat} {pr : Nat × Stage}
    (h : l[i]? = some pr) :
    l = l.take i ++ pr :: l.drop (i + 1) := by
  obtain ⟨hi, hget⟩ := List.getElem?_eq_some.mp h
  conv_lhs => rw [← List.take_append_drop i l]
  rw [List.drop_eq_getElem_cons hi, hget]

/-- A non-`Open` outcome completes the probe: erase it, bump the counter. -/
theorem inv_resolve_close (cfg : Cfg) (st : State) (i : Nat) (p : Nat) (h : Inv cfg st)
    (hio : st.inflight[i]? = some (p, Stage.connecting)) (hno : cfg.isOpen p = false) :
    Inv cfg { st with inflight := st.inflight.eraseIdx i, done := st.done + 1 } := by
  have hdecomp := inflight_decomp hio
  have herase := List.eraseIdx_eq_take_drop_succ st.inflight i
  have hlen : st.inflight.length = (st.inflight.take i).length + (st.inflight.drop (i + 1)).length + 1 := by
    conv_lhs => rw [hdecomp]
    simp only [List.length_append, List.length_cons]
    omega
  refine ⟨?_, ?_, ?_, ?_, ?_, ?_, ?_⟩
  · have := h.window
    rw [herase]
    simp only [List.length_append]
    omega
  · exact h.bufferBound
  · exact h.split
  · have := h.completedCount
    rw [herase]
    simp only [List.length_append]
    omega
  · intro pr hpr hsend
    rw [herase] at hpr
    refine h.sendingOpen pr ?_ hsend
    rw [hdecomp]
    rcases List.mem_append.mp hpr with hm | hm
    · exact List.mem_append.mpr (Or.inl hm)
    · exact List.mem_append.mpr (Or.inr (List.mem_cons_of_mem _ hm))
  · exact h.bufferOpen
  · intro x hx
    have hox := h.openCount x hx
    have hxp : x ≠ p := by
      intro he
      rw [he, hno] at hx
      cases hx
    rw [hdecomp] at hox
    rw [herase]
    simp only [List.map_append, List.map_cons, List.count_append, List.count_cons] at hox ⊢
    simp only [beq_iff_eq] at hox
    rw [if_neg (fun e => hxp e.symm)] at hox
    omega

theorem inv_resolve (cfg : Cfg) (st : State) (i : Nat) (h : Inv cfg st) :
    Inv cfg (step cfg st (Choice.resolve i)) := by
  cases hio : st.inflight[i]? with
  | none => simpa [step, hio] using h
  | some pr =>
    obtain ⟨p, stg⟩ := pr
    cases stg with
    | sending => simpa [step, hio] using h
    | connecting =>
      have hdecomp := inflight_decomp hio
      obtain ⟨hi, -⟩ := List.getElem?_eq_some.mp hio
      cases ho : cfg.outcome p with
      | Open =>
        have hset : st.inflight.set i (p, Stage.sending)
            = st.inflight.take i ++ (p, Stage.sending) :: st.inflight.drop (i + 1) :=
          List.set_eq_take_cons_drop _ hi
        have hmapeq : (st.inflight.set i (p, Stage.sending)).map Prod.fst
            = st.inflight.map Prod.fst := by
          rw [hset]
          conv_rhs => rw [hdecomp]
          simp
        simp only [step, hio, ho]
        refine ⟨?_, h.bufferBound, h.split, ?_, ?_, h.bufferOpen, ?_⟩
        · simpa using h.window
        · simpa using h.completedCount
        · intro pr hpr hsend
          rw [hset] at hpr
          rcases List.mem_append.mp hpr with hm | hm
          · refine h.sendingOpen pr ?_ hsend
            rw [hdecomp]
            exact List.mem_append.mpr (Or.inl hm)
          · rcases List.mem_cons.mp hm with rfl | hm
            · simp [Cfg.isOpen, ho]
            · refine h.sendingOpen pr ?_ hsend
              rw [hdecomp]
              exact List.mem_append.mpr (Or.inr (List.mem_cons_of_mem _ hm))
        · intro x hx
          rw [hmapeq]
          exact h.openCount x hx
      | ClosedErr =>
        have hno : cfg.isOpen p = false := by simp [Cfg.isOpen, ho]
        simpa only [step, hio, ho] using inv_resolve_close cfg st i p h hio hno
      | TimedOut =>
        have hno : cfg.isOpen p = false := by simp [Cfg.isOpen, ho]
        simpa only [step, hio, ho] using inv_resolve_close cfg st i p h hio hno

theorem inv_send (cfg : Cfg) (st : State) (i : Nat) (h : Inv cfg st) :
    Inv cfg (step cfg st (Choice.send i)) := by
  cases hio : st.inflight[i]? with
  | none => simpa [step, hio] using h
  | some pr =>
    obtain ⟨p, stg⟩ := pr
    cases stg with
    | connecting => simpa [step, hio] using h
    | sending =>
      by_cases hbuf : st.buffer.length < cfg.cap
      · have hdecomp := inflight_decomp hio
        have herase := List.eraseIdx_eq_take_drop_succ st.inflight i
        have hlen : st.inflight.length
            = (st.inflight.take i).length + (st.inflight.drop (i + 1)).length + 1 := by
          conv_lhs => rw [hdecomp]
          simp only [List.length_append, List.length_cons]
          omega
        have hpopen : cfg.isOpen p = true := by
          refine h.sendingOpen (p, Stage.sending) ?_ rfl
          rw [hdecomp]
          exact List.mem_append.mpr (Or.inr (List.mem_cons_self _ _))
        simp only [step, hio, if_pos hbuf]
        refine ⟨?_, ?_, h.split, ?_, ?_, ?_, ?_⟩
        · have := h.window
          rw [herase]
          simp only [List.length_append]
          omega
        · simp only [List.length_append, List.length_cons, List.length_nil]
          omega
        · have := h.completedCount
          rw [herase]
          simp only [List.length_append]
          omega
        · intro pr hpr hsend
          rw [herase] at hpr
          refine h.sendingOpen pr ?_ hsend
          rw [hdecomp]
          rcases List.mem_append.mp hpr with hm | hm
          · exact List.mem_append.mpr (Or.inl hm)
          · exact List.mem_append.mpr (Or.inr (List.mem_cons_of_mem _ hm))
        · intro x hxm
          rcases List.mem_append.mp hxm with hm | hm
          · exact h.bufferOpen x hm
          · simp only [List.mem_singleton] at hm
            subst hm
            exact hpopen
        · intro x hx
          have hox := h.openCount x hx
          rw [hdecomp] at hox
          rw [herase]
          simp only [List.map_append, List.map_cons, List.count_append, List.count_cons,
            List.count_nil, beq_iff_eq] at hox ⊢
          omega
      · simpa [step, hio, if_neg hbuf] using h

theorem inv_step (cfg : Cfg) (st : State) (c : Choice) (h : Inv cfg st) :
    Inv cfg (step cfg st c) := by
  cases c with
  | launch => exact inv_launch cfg st h
  | resolve i => exact inv_resolve cfg st i h
  | send i => exact inv_send cfg st i h

theorem inv_run (cfg : Cfg) (cs : List Choice) (st : State) (h : Inv cfg st) :
    Inv cfg (run cfg cs st) := by
  induction cs generalizing st with
  | nil => simpa [run] using h
  | cons c cs ih =>
    rw [run, List.foldl_cons]
    exact ih (step cfg st c) (inv_step cfg st c h)

theorem inv_reachable (cfg : Cfg) (st : State) (h : Reachable cfg st) : Inv cfg st := by
  obtain ⟨cs, rfl⟩ := h
  exact inv_run cfg cs cfg.init (inv_init cfg)

/-! ## Consequences at the completion barrier -/

/-- When `for_each_concurrent` has returned, the admission history is the
whole range, in ascending order, and the progress counter equals the range
size. -/
theorem finished_launched_done (cfg : Cfg) (st : State)
    (hr : Reachable cfg st) (hf : Finished st) :
    st.launched = cfg.ports ∧ st.done = cfg.total := by
  have hinv := inv_reachable cfg st hr
  have hsplit := hinv.split
  rw [hf.1, List.append_nil] at hsplit
  have hcnt := hinv.completedCount
  rw [hf.2] at hcnt
  simp only [List.length_nil, Nat.add_zero] at hcnt
  refine ⟨hsplit, ?_⟩
  rw [hcnt, hsplit]
  simp [Cfg.ports]

/-- When the scan completes, the channel holds exactly the open ports of
the range (as a multiset). -/
theorem finished_buffer_perm (cfg : Cfg) (st : State)
    (hr : Reachable cfg st) (hf : Finished st) :
    List.Perm st.buffer cfg.openPorts := by
  have hinv := inv_reachable cfg st hr
  rw [List.perm_iff_count]
  intro x
  by_cases hx : cfg.isOpen x = true
  · have hox := hinv.openCount x hx
    rw [hf.1, hf.2] at hox
    simp only [List.count_nil, List.map_nil, Nat.zero_add] at hox
    rw [Cfg.openPorts, List.count_filter hx]
    omega
  · have hb : st.buffer.count x = 0 :=
      List.count_eq_zero.mpr (fun hm => hx (hinv.bufferOpen x hm))
    have hop : cfg.openPorts.count x = 0 :=
      List.count_eq_zero.mpr (fun hm => hx (List.mem_filter.mp hm).2)
    rw [hb, hop]

/-- The port range is strictly ascending, hence so is any filtered
sublist of it. -/
theorem openPorts_sorted (cfg : Cfg) : List.Sorted (· ≤ ·) cfg.openPorts := by
  have h1 : List.Sorted (· < ·) cfg.ports := List.pairwise_lt_range' _ _
  have h2 : List.Sorted (· < ·) cfg.openPorts :=
    h1.sublist (List.filter_sublist _)
  exact h2.imp le_of_lt

/-- Canonical form of the final report: however the probes were scheduled,
a completed scan sorts its channel contents into exactly the ascending
list of open ports of the range. -/
theorem finalResult_eq_openPorts (cfg : Cfg) (st : State)
    (hr : Reachable cfg st) (hf : Finished st) :
    finalResult st = cfg.openPorts := by
  have hperm : List.Perm (finalResult st) cfg.openPorts :=
    (List.perm_insertionSort _ _).trans (finished_buffer_perm cfg st hr hf)
  exact List.eq_of_perm_of_sorted hperm
    (List.sorted_insertionSort _ _) (openPorts_sorted cfg)

/-- A completed scan can only have buffered at most `cap` open ports, so
completion forces the open-port count of the range to be at most the
channel capacity. -/
theorem finished_open_le_cap (cfg : Cfg) (st : State)
    (hr : Reachable cfg st) (hf : Finished st) :
    cfg.openPorts.length ≤ cfg.cap := by
  have hinv := inv_reachable cfg st hr
  have hlen := (finished_buffer_perm cfg st hr hf).length_eq
  rw [← hlen]
  exact hinv.bufferBound

/-! ## Concrete demonstration targets (used by the witness theorems) -/

/-- A static two-port target: port 2 accepts, port 1 refuses. -/
def demoOutcome : Nat → ProbeOutcome :=
  fun p => if p = 2 then ProbeOutcome.Open else ProbeOutcome.ClosedErr

/-- Range [1, 2], concurrency 1, the real channel capacity 100. -/
def demoCfg1 : Cfg := ⟨1, 2, 1, 100, demoOutcome⟩

/-- Range [1, 2], concurrency 2, the real channel capacity 100. -/
def demoCfg2 : Cfg := ⟨1, 2, 2, 100, demoOutcome⟩

/-- Range [1, 2], concurrency 2, the `src/src/main.rs` capacity 250. -/
def demoCfg3 : Cfg := ⟨1, 2, 2, 250, demoOutcome⟩

/-- Sequential schedule: probe port 1 to completion, then port 2. -/
def demoSchedSeq : List Choice :=
  [Choice.launch, Choice.resolve 0, Choice.launch, Choice.resolve 0, Choice.send 0]

/-- Concurrent schedule where the later-admitted port 2 finishes first. -/
def demoSchedRev : List Choice :=
  [Choice.launch, Choice.launch, Choice.resolve 1, Choice.send 1, Choice.resolve 0]

/-! ## The claims -/

/-- C1: for every valid range `[s, e]` (`1 ≤ s ≤ e ≤ 65535`) and
concurrency `C ∈ [1, 100]`, however the probes are scheduled, a completed
scan has admitted exactly one probe per port of the inclusive range — the
admission history is exactly the ascending range, with no duplicates and
no gaps — and the completed-probe count at scan end is `e − s + 1`. -/
theorem scan_completes_full_range (cfg : Cfg) (st : State)
    (h1 : 1 ≤ cfg.s) (h2 : cfg.s ≤ cfg.e) (h3 : cfg.e ≤ 65535)
    (hC1 : 1 ≤ cfg.C) (hC2 : cfg.C ≤ 100)
    (hr : Reachable cfg st) (hf : Finished st) :
    st.launched = List.range' cfg.s (cfg.e - cfg.s + 1) ∧
    st.launched.Nodup ∧
    st.done = cfg.e - cfg.s + 1 := by
  obtain ⟨hl, hd⟩ := finished_launched_done cfg st hr hf
  have htot : cfg.total = cfg.e - cfg.s + 1 := by
    unfold Cfg.total
    omega
  refine ⟨?_, ?_, ?_⟩
  · rw [hl, Cfg.ports, htot]
  · rw [hl, Cfg.ports]
    exact List.nodup_range' cfg.s cfg.total
  · rw [hd, htot]

theorem scan_completes_full_range_witness :
    (run demoCfg1 demoSchedSeq demoCfg1.init).launched = List.range' 1 2 ∧
    (run demoCfg1 demoSchedSeq demoCfg1.init).launched.Nodup ∧
    (run demoCfg1 demoSchedSeq demoCfg1.init).done = 2 :=
  scan_completes_full_range demoCfg1 (run demoCfg1 demoSchedSeq demoCfg1.init)
    (by decide) (by decide) (by decide) (by decide) (by decide)
    ⟨demoSchedSeq, rfl⟩ (by decide)

/-- C2: at the end of any completed scan over a valid range, the reported
set contains a port `p` iff `p` lies in `[s, e]` and the timed TCP connect
to `(addr, p)` succeeded strictly before the 3-second timeout
(`Ok(Ok(_))`); both a transport error (`Ok(Err(_))`) and a timeout
(`Err(Elapsed)`) exclude `p`.  In particular the set is a subset of
`[s, e]`. -/
theorem open_set_characterization (cfg : Cfg) (st : State)
    (h1 : 1 ≤ cfg.s) (h2 : cfg.s ≤ cfg.e) (h3 : cfg.e ≤ 65535)
    (hr : Reachable cfg st) (hf : Finished st) :
    ∀ p : Nat, p ∈ finalResult st ↔
      cfg.s ≤ p ∧ p ≤ cfg.e ∧ cfg.outcome p = ProbeOutcome.Open := by
  intro p
  rw [finalResult_eq_openPorts cfg st hr hf, Cfg.openPorts, List.mem_filter,
    Cfg.ports, List.mem_range'_1, Cfg.isOpen, decide_eq_true_eq, Cfg.total]
  constructor
  · rintro ⟨⟨ha, hb⟩, hc⟩
    exact ⟨ha, by omega, hc⟩
  · rintro ⟨ha, hb, hc⟩
    exact ⟨⟨ha, by omega⟩, hc⟩

theorem open_set_characterization_witness :
    2 ∈ finalResult (run demoCfg1 demoSchedSeq demoCfg1.init) ↔
      demoCfg1.s ≤ 2 ∧ 2 ≤ demoCfg1.e ∧ demoCfg1.outcome 2 = ProbeOutcome.Open :=
  open_set_characterization demoCfg1 (run demoCfg1 demoSchedSeq demoCfg1.init)
    (by decide) (by decide) (by decide) ⟨demoSchedSeq, rfl⟩ (by decide) 2

/-- C3 (the code deadlocks here): the target where every port of
`[1, 101]` is open, scanned with concurrency 50 and the real channel
capacity `CHANNEL_BUFFER_SIZE = 100` of `src/port_sniffer_cli/src/main.rs`. -/
def deadlockCfg : Cfg := ⟨1, 101, 50, CHANNEL_BUFFER_SIZE, fun _ => ProbeOutcome.Open⟩

/-- C3: the claim says the scan always terminates, even when the number of
open ports exceeds the channel capacity of 100.  The code does not: the
receiver is drained only after `for_each_concurrent` returns, so once 100
open ports are buffered, the 101st `tx.send(port).await` suspends forever
and `for_each_concurrent` never returns.  Formally: with 101 open ports and
capacity 100, no schedule whatsoever reaches the completion barrier. -/
theorem deadlock_when_open_exceeds_buffer (st : State)
    (hr : Reachable deadlockCfg st) : ¬ Finished st := by
  intro hf
  have hle := finished_open_le_cap deadlockCfg st hr hf
  have hlen : deadlockCfg.openPorts.length = 101 := by decide
  rw [hlen] at hle
  exact absurd hle (by decide)

theorem deadlock_when_open_exceeds_buffer_witness :
    ¬ Finished deadlockCfg.init :=
  deadlock_when_open_exceeds_buffer deadlockCfg.init ⟨[], rfl⟩

/-- C4: in every reachable state of a scan whose operator-supplied
concurrency `C` lies in `[1, 100]`, at most `C` probes are in flight, and
this bound is preserved by every possible next step of the dispatch loop. -/
theorem inflight_le_concurrency (cfg : Cfg) (st : State)
    (hC1 : 1 ≤ cfg.C) (hC2 : cfg.C ≤ 100)
    (hr : Reachable cfg st) :
    st.inflight.length ≤ cfg.C ∧
    ∀ c : Choice, (step cfg st c).inflight.length ≤ cfg.C := by
  have hinv := inv_reachable cfg st hr
  exact ⟨hinv.window, fun c => (inv_step cfg st c hinv).window⟩

theorem inflight_le_concurrency_witness :
    (run demoCfg2 [Choice.launch] demoCfg2.init).inflight.length ≤ demoCfg2.C :=
  (inflight_le_concurrency demoCfg2 (run demoCfg2 [Choice.launch] demoCfg2.init)
    (by decide) (by decide) ⟨[Choice.launch], rfl⟩).1

/-- C5: one `scan` invocation emits exactly one progress signal whatever
the outcome; it attempts the result publication exactly once and only on
the `Open` outcome; and a failed result publication is swallowed — the
trace still ends with the progress signal, the probe never aborts. -/
theorem probe_publication_discipline (port : Nat) (r : ProbeOutcome) (channelOk : Bool) :
    (scanEvents port r channelOk).countP (fun ev => ev matches ScanEvent.ProgressInc) = 1 ∧
    (scanEvents port r channelOk).countP
        (fun ev => ev matches ScanEvent.ResultSent _ | ScanEvent.ResultSendFailed _)
      = (if r = ProbeOutcome.Open then 1 else 0) ∧
    (scanEvents port r channelOk).getLast? = some ScanEvent.ProgressInc := by
  cases r <;> cases channelOk <;>
    simp [scanEvents, List.countP_cons, List.countP_nil, List.getLast?]

/-- C6: whatever the completion order of the probes, the list handed to
display at the end of a completed scan is sorted ascending (every adjacent
pair is ordered), and when it is empty the display is the single line
"No open ports found." rather than an enumeration. -/
theorem final_list_sorted_empty_display (cfg : Cfg) (st : State)
    (hr : Reachable cfg st) (hf : Finished st) :
    List.Sorted (· ≤ ·) (finalResult st) ∧
    (finalResult st = [] → displayLines (finalResult st) = ["No open ports found."]) := by
  refine ⟨List.sorted_insertionSort _ _, ?_⟩
  intro he
  rw [he]
  rfl

theorem final_list_sorted_empty_display_witness :
    List.Sorted (· ≤ ·) (finalResult (run demoCfg1 demoSchedSeq demoCfg1.init)) :=
  (final_list_sorted_empty_display demoCfg1 (run demoCfg1 demoSchedSeq demoCfg1.init)
    ⟨demoSchedSeq, rfl⟩ (by decide)).1

/-- C8: two executions of the scan against the same static target with the
same address, range and concurrency reach the same final sorted list, for
every pair of (nondeterministic) probe schedules that complete. -/
theorem scan_deterministic_across_runs (cfg : Cfg) (st₁ st₂ : State)
    (hr₁ : Reachable cfg st₁) (hf₁ : Finished st₁)
    (hr₂ : Reachable cfg st₂) (hf₂ : Finished st₂) :
    finalResult st₁ = finalResult st₂ := by
  rw [finalResult_eq_openPorts cfg st₁ hr₁ hf₁,
    finalResult_eq_openPorts cfg st₂ hr₂ hf₂]

theorem scan_deterministic_across_runs_witness :
    finalResult (run demoCfg2 demoSchedSeq demoCfg2.init)
      = finalResult (run demoCfg2 demoSchedRev demoCfg2.init) :=
  scan_deterministic_across_runs demoCfg2
    (run demoCfg2 demoSchedSeq demoCfg2.init)
    (run demoCfg2 demoSchedRev demoCfg2.init)
    ⟨demoSchedSeq, rfl⟩ (by decide) ⟨demoSchedRev, rfl⟩ (by decide)

/-- C9: against a static target, a completed fully sequential scan
(`C = 1`) reports exactly the same final sorted list as a completed scan
of the same address and range with any larger concurrency `C ∈ [2, 100]`. -/
theorem result_independent_of_concurrency
    (s e cap : Nat) (outcome : Nat → ProbeOutcome) (C₂ : Nat)
    (hC2 : 2 ≤ C₂) (hC100 : C₂ ≤ 100) (st₁ st₂ : State)
    (hr₁ : Reachable ⟨s, e, 1, cap, outcome⟩ st₁) (hf₁ : Finished st₁)
    (hr₂ : Reachable ⟨s, e, C₂, cap, outcome⟩ st₂) (hf₂ : Finished st₂) :
    finalResult st₁ = finalResult st₂ := by
  rw [finalResult_eq_openPorts _ st₁ hr₁ hf₁, finalResult_eq_openPorts _ st₂ hr₂ hf₂]
  rfl

theorem result_independent_of_concurrency_witness :
    finalResult (run demoCfg1 demoSchedSeq demoCfg1.init)
      = finalResult (run demoCfg2 demoSchedRev demoCfg2.init) :=
  result_independent_of_concurrency 1 2 100 demoOutcome 2 (by decide) (by decide)
    (run demoCfg1 demoSchedSeq demoCfg1.init)
    (run demoCfg2 demoSchedRev demoCfg2.init)
    ⟨demoSchedSeq, rfl⟩ (by decide) ⟨demoSchedRev, rfl⟩ (by decide)

/-- C10: the pipelines of the two program copies differ only in the
collector channel capacity (100 in `src/port_sniffer_cli/src/main.rs`, 250
in `src/src/main.rs`); for the same input and static target, whenever each
copy's scan reaches its completion barrier, both report the same final
sorted open-port list and the same completed-probe count. -/
theorem copies_equivalent_at_completion
    (s e C : Nat) (outcome : Nat → ProbeOutcome) (st₁ st₂ : State)
    (hr₁ : Reachable ⟨s, e, C, CHANNEL_BUFFER_SIZE, outcome⟩ st₁) (hf₁ : Finished st₁)
    (hr₂ : Reachable ⟨s, e, C, CHANNEL_BUFFER_SIZE_SRC, outcome⟩ st₂) (hf₂ : Finished st₂) :
    finalResult st₁ = finalResult st₂ ∧ st₁.done = st₂.done := by
  refine ⟨?_, ?_⟩
  · rw [finalResult_eq_openPorts _ st₁ hr₁ hf₁, finalResult_eq_openPorts _ st₂ hr₂ hf₂]
    rfl
  · rw [(finished_launched_done _ st₁ hr₁ hf₁).2, (finished_launched_done _ st₂ hr₂ hf₂).2]
    rfl

theorem copies_equivalent_at_completion_witness :
    finalResult (run demoCfg2 demoSchedSeq demoCfg2.init)
        = finalResult (run demoCfg3 demoSchedRev demoCfg3.init) ∧
    (run demoCfg2 demoSchedSeq demoCfg2.init).done
        = (run demoCfg3 demoSchedRev demoCfg3.init).done :=
  copies_equivalent_at_completion 1 2 2 demoOutcome
    (run demoCfg2 demoSchedSeq demoCfg2.init)
    (run demoCfg3 demoSchedRev demoCfg3.init)
    ⟨demoSchedSeq, rfl⟩ (by decide) ⟨demoSchedRev, rfl⟩ (by decide)

/-! ## Divergence of the two copies (C10 counterexample) -/

/-- A target where all 150 ports of `[1, 150]` are open, scanned with
concurrency 50 by the `port_sniffer_cli` copy (channel capacity 100). -/
def caseCfg100 : Cfg := ⟨1, 150, 50, CHANNEL_BUFFER_SIZE, fun _ => ProbeOutcome.Open⟩

/-- The same input and target scanned by the `src/src/main.rs` copy
(channel capacity 250). -/
def caseCfg250 : Cfg := ⟨1, 150, 50, CHANNEL_BUFFER_SIZE_SRC, fun _ => ProbeOutcome.Open⟩

/-- A schedule that probes `n` ports one after the other to completion. -/
def seqSched : Nat → List Choice
  | 0 => []
  | n + 1 => Choice.launch :: Choice.resolve 0 :: Choice.send 0 :: seqSched n

theorem run_cons (cfg : Cfg) (c : Choice) (cs : List Choice) (st : State) :
    run cfg (c :: cs) st = run cfg cs (step cfg st c) := by
  simp [run]

/-- Driving the pipeline fully sequentially: as long as the channel has
room for every open port still pending, `seqSched` completes the scan,
buffering exactly the pending open ports in order. -/
theorem seqSched_run (cfg : Cfg) (hC : 1 ≤ cfg.C) :
    ∀ (pend buf : List Nat) (dn : Nat) (ln : List Nat),
      buf.length + (pend.filter cfg.isOpen).length ≤ cfg.cap →
      run cfg (seqSched pend.length) ⟨pend, [], buf, dn, ln⟩
        = ⟨[], [], buf ++ pend.filter cfg.isOpen, dn + pend.length, ln ++ pend⟩ := by
  intro pend
  induction pend with
  | nil =>
    intro buf dn ln hcap
    simp [seqSched, run]
  | cons p rest ih =>
    intro buf dn ln hcap
    rw [List.length_cons,
      show seqSched (rest.length + 1)
        = Choice.launch :: Choice.resolve 0 :: Choice.send 0 :: seqSched rest.length from rfl,
      run_cons, run_cons, run_cons]
    have hlaunch : step cfg ⟨p :: rest, [], buf, dn, ln⟩ Choice.launch
        = ⟨rest, [(p, Stage.connecting)], buf, dn, ln ++ [p]⟩ := by
      simp only [step, List.length_nil]
      rw [if_pos (by omega)]
      simp
    rw [hlaunch]
    cases ho : cfg.outcome p with
    | Open =>
      have hopen : cfg.isOpen p = true := by simp [Cfg.isOpen, ho]
      have hresolve : step cfg ⟨rest, [(p, Stage.connecting)], buf, dn, ln ++ [p]⟩
          (Choice.resolve 0) = ⟨rest, [(p, Stage.sending)], buf, dn, ln ++ [p]⟩ := by
        simp [step, ho]
      have hblt : buf.length < cfg.cap := by
        rw [List.filter_cons_of_pos hopen] at hcap
        simp only [List.length_cons] at hcap
        omega
      have hsend : step cfg ⟨rest, [(p, Stage.sending)], buf, dn, ln ++ [p]⟩
          (Choice.send 0) = ⟨rest, [], buf ++ [p], dn + 1, ln ++ [p]⟩ := by
        simp [step, hblt]
      have hcap' : (buf ++ [p]).length + (rest.filter cfg.isOpen).length ≤ cfg.cap := by
        rw [List.filter_cons_of_pos hopen] at hcap
        simp only [List.length_cons, List.length_append, List.length_nil] at hcap ⊢
        omega
      rw [hresolve, hsend, ih (buf ++ [p]) (dn + 1) (ln ++ [p]) hcap']
      have h1 : (buf ++ [p]) ++ rest.filter cfg.isOpen
          = buf ++ (p :: rest).filter cfg.isOpen := by
        rw [List.filter_cons_of_pos hopen]
        simp
      have h2 : dn + 1 + rest.length = dn + (rest.length + 1) := by omega
      have h3 : (ln ++ [p]) ++ rest = ln ++ p :: rest := by simp
      rw [h1, h2, h3]
    | ClosedErr =>
      have hno : cfg.isOpen p = false := by simp [Cfg.isOpen, ho]
      have hresolve : step cfg ⟨rest, [(p, Stage.connecting)], buf, dn, ln ++ [p]⟩
          (Choice.resolve 0) = ⟨rest, [], buf, dn + 1, ln ++ [p]⟩ := by
        simp [step, ho]
      have hsend : step cfg ⟨rest, [], buf, dn + 1, ln ++ [p]⟩ (Choice.send 0)
          = ⟨rest, [], buf, dn + 1, ln ++ [p]⟩ := by
        simp [step]
      have hcap' : buf.length + (rest.filter cfg.isOpen).length ≤ cfg.cap := by
        rw [List.filter_cons_of_neg (by simp [hno])] at hcap
        exact hcap
      rw [hresolve, hsend, ih buf (dn + 1) (ln ++ [p]) hcap']
      have h1 : buf ++ rest.filter cfg.isOpen = buf ++ (p :: rest).filter cfg.isOpen := by
        rw [List.filter_cons_of_neg (by simp [hno])]
      have h2 : dn + 1 + rest.length = dn + (rest.length + 1) := by omega
      have h3 : (ln ++ [p]) ++ rest = ln ++ p :: rest := by simp
      rw [h1, h2, h3]
    | TimedOut =>
      have hno : cfg.isOpen p = false := by simp [Cfg.isOpen, ho]
      have hresolve : step cfg ⟨rest, [(p, Stage.connecting)], buf, dn, ln ++ [p]⟩
          (Choice.resolve 0) = ⟨rest, [], buf, dn + 1, ln ++ [p]⟩ := by
        simp [step, ho]
      have hsend : step cfg ⟨rest, [], buf, dn + 1, ln ++ [p]⟩ (Choice.send 0)
          = ⟨rest, [], buf, dn + 1, ln ++ [p]⟩ := by
        simp [step]
      have hcap' : buf.length + (rest.filter cfg.isOpen).length ≤ cfg.cap := by
        rw [List.filter_cons_of_neg (by simp [hno])] at hcap
        exact hcap
      rw [hresolve, hsend, ih buf (dn + 1) (ln ++ [p]) hcap']
      have h1 : buf ++ rest.filter cfg.isOpen = buf ++ (p :: rest).filter cfg.isOpen := by
        rw [List.filter_cons_of_neg (by simp [hno])]
      have h2 : dn + 1 + rest.length = dn + (rest.length + 1) := by omega
      have h3 : (ln ++ [p]) ++ rest = ln ++ p :: rest := by simp
      rw [h1, h2, h3]

/-- A scan whose open ports fit in the channel can run to completion. -/
theorem seqSched_completes (cfg : Cfg) (hC : 1 ≤ cfg.C)
    (hcap : cfg.openPorts.length ≤ cfg.cap) :
    run cfg (seqSched cfg.ports.length) cfg.init
      = ⟨[], [], cfg.openPorts, cfg.ports.length, cfg.ports⟩ := by
  have h := seqSched_run cfg hC cfg.ports [] 0 []
    (by simpa [Cfg.openPorts] using hcap)
  simpa [Cfg.init, Cfg.openPorts] using h

/-- C10 counterexample: on the same input (range `[1, 150]`, concurrency
50) and the same static target with 150 open ports, the capacity-100 copy
never reaches its completion barrier under any schedule, while the
capacity-250 copy completes and reports all 150 ports — so the two copies
do not compute the same final list for every input and target. -/
theorem copies_equivalent_counterexample :
    (∀ st : State, Reachable caseCfg100 st → ¬ Finished st) ∧
    Finished (run caseCfg250 (seqSched 150) caseCfg250.init) ∧
    finalResult (run caseCfg250 (seqSched 150) caseCfg250.init) = List.range' 1 150 ∧
    (run caseCfg250 (seqSched 150) caseCfg250.init).done = 150 := by
  have hports : caseCfg250.ports = List.range' 1 150 := rfl
  have hopen : caseCfg250.openPorts = List.range' 1 150 := by
    rw [Cfg.openPorts, hports]
    exact List.filter_eq_self.mpr (fun a _ => by simp [caseCfg250, Cfg.isOpen])
  have hlen : caseCfg250.ports.length = 150 := by
    rw [hports, List.length_range']
  have hrun := seqSched_completes caseCfg250 (by decide)
    (by rw [hopen, List.length_range']; decide)
  rw [hlen] at hrun
  refine ⟨?_, ?_, ?_, ?_⟩
  · intro st hr hf
    have hle := finished_open_le_cap caseCfg100 st hr hf
    have hlen100 : caseCfg100.openPorts.length = 150 := by
      have : caseCfg100.openPorts = List.range' 1 150 := by
        rw [Cfg.openPorts]
        exact List.filter_eq_self.mpr (fun a _ => by simp [caseCfg100, Cfg.isOpen])
      rw [this, List.length_range']
    rw [hlen100] at hle
    exact absurd hle (by decide)
  · rw [hrun]
    exact ⟨rfl, rfl⟩
  · rw [hrun, finalResult, hopen]
    exact List.Sorted.insertionSort_eq
      ((List.pairwise_lt_range' 1 150).imp le_of_lt)
  · rw [hrun]

/-! ## The argument layer (C7) -/

theorem parseConcurrency_ok_iff (x : String) (v : Nat) :
    parseConcurrency x = Except.ok v ↔ x.toNat? = some v ∧ 1 ≤ v ∧ v ≤ 100 := by
  unfold parseConcurrency
  cases h : x.toNat? with
  | none => simp
  | some w =>
    by_cases hw : 1 ≤ w ∧ w ≤ 100
    · have : (1 ≤ w && w ≤ 100) = true := by
        simp [Bool.and_eq_true, decide_eq_true_eq]
        omega
      simp only [this, if_true]
      constructor
      · rintro he
        cases he
        exact ⟨rfl, hw⟩
      · rintro ⟨he, -⟩
        cases he
        rfl
    · have : (1 ≤ w && w ≤ 100) = false := by
        simp [Bool.and_eq_false_iff, decide_eq_false_iff_not]
        omega
      simp only [this, if_false]
      constructor
      · rintro he
        cases he
      · rintro ⟨he, hb⟩
        cases he
        exact absurd hb hw

theorem parsePort_ok_iff (x : String) (v : Nat) :
    parsePort x = Except.ok v ↔ x.toNat? = some v ∧ 1 ≤ v ∧ v ≤ 65535 := by
  unfold parsePort parseU16
  cases h : x.toNat? with
  | none => simp
  | some w =>
    by_cases hle : w ≤ 65535
    · simp only [if_pos hle]
      by_cases hlt : w < MIN_PORT || w > MAX_PORT
      · simp only [if_pos hlt]
        simp only [MIN_PORT, MAX_PORT, Bool.or_eq_true, decide_eq_true_eq] at hlt
        constructor
        · rintro he
          cases he
        · rintro ⟨he, h1, h2⟩
          cases he
          omega
      · simp only [if_neg hlt]
        simp only [MIN_PORT, MAX_PORT, Bool.or_eq_true, decide_eq_true_eq, not_or,
          Nat.not_lt, Nat.not_gt_eq] at hlt
        constructor
        · rintro he
          cases he
          exact ⟨rfl, by omega⟩
        · rintro ⟨he, -⟩
          cases he
          rfl
    · simp only [if_neg hle]
      constructor
      · rintro he
        cases he
      · rintro ⟨he, -, hb⟩
        cases he
        exact absurd hb hle

/-- C7: the argument layer accepts an input exactly when it satisfies the
validated-record contract — the ip parses as an address, concurrency is a
number in `[1, 100]`, both ports are numbers in `[1, 65535]`, and
`start_port ≤ end_port`; every rejection is a non-zero process exit (clap
code 2, or code 1 from the `start_port > end_port` check) before any probe
starts, and an accepted record reaches the core with the parsed values
passed through unmodified — no further validation. -/
theorem frontend_accepts_iff_valid (ipOk : Bool) (c sp ep : String) :
    ((∃ a : CliArgs, frontend ipOk c sp ep = Except.ok a ∧
        c.toNat? = some a.concurrency ∧ sp.toNat? = some a.startPort ∧
        ep.toNat? = some a.endPort) ↔
      (ipOk = true ∧
        (∃ cv, c.toNat? = some cv ∧ 1 ≤ cv ∧ cv ≤ 100) ∧
        (∃ sv ev, sp.toNat? = some sv ∧ ep.toNat? = some ev ∧
          1 ≤ sv ∧ sv ≤ ev ∧ ev ≤ 65535))) ∧
    ∀ code : Nat, frontend ipOk c sp ep = Except.error code → code ≠ 0 := by
  cases ipOk with
  | false =>
    refine ⟨?_, ?_⟩
    · simp [frontend]
    · intro code hcode
      simp only [frontend, Bool.false_eq_true, if_false, Except.error.injEq] at hcode
      omega
  | true =>
    refine ⟨?_, ?_⟩
    · constructor
      · rintro ⟨a, hok, hc, hsp, hep⟩
        simp only [frontend, if_true] at hok
        cases hpc : parseConcurrency c with
        | error msg => rw [hpc] at hok; cases hok
        | ok cv =>
          cases hps : parsePort sp with
          | error msg => rw [hpc, hps] at hok; cases hok
          | ok sv =>
            cases hpe : parsePort ep with
            | error msg => rw [hpc, hps, hpe] at hok; cases hok
            | ok ev =>
              rw [hpc, hps, hpe] at hok
              dsimp only at hok
              by_cases hgt : sv > ev
              · rw [if_pos hgt] at hok; cases hok
              · rw [if_neg hgt] at hok
                cases hok
                obtain ⟨hc', h1, h2⟩ := (parseConcurrency_ok_iff c cv).mp hpc
                obtain ⟨hs', h3, h4⟩ := (parsePort_ok_iff sp sv).mp hps
                obtain ⟨he', h5, h6⟩ := (parsePort_ok_iff ep ev).mp hpe
                exact ⟨rfl, ⟨cv, hc', h1, h2⟩, ⟨sv, ev, hs', he', by omega⟩⟩
      · rintro ⟨-, ⟨cv, hc, h1, h2⟩, ⟨sv, ev, hsp, hep, h3, h4, h5⟩⟩
        have hpc : parseConcurrency c = Except.ok cv :=
          (parseConcurrency_ok_iff c cv).mpr ⟨hc, h1, h2⟩
        have hps : parsePort sp = Except.ok sv :=
          (parsePort_ok_iff sp sv).mpr ⟨hsp, by omega⟩
        have hpe : parsePort ep = Except.ok ev :=
          (parsePort_ok_iff ep ev).mpr ⟨hep, by omega⟩
        refine ⟨⟨cv, sv, ev⟩, ?_, hc, hsp, hep⟩
        simp only [frontend, if_true, hpc, hps, hpe]
        rw [if_neg (by omega)]
    · intro code hcode
      simp only [frontend, if_true] at hcode
      cases hpc : parseConcurrency c with
      | error msg =>
        rw [hpc] at hcode
        cases hcode
        omega
      | ok cv =>
        cases hps : parsePort sp with
        | error msg =>
          rw [hpc, hps] at hcode
          cases hcode
          omega
        | ok sv =>
          cases hpe : parsePort ep with
          | error msg =>
            rw [hpc, hps, hpe] at hcode
            cases hcode
            omega
          | ok ev =>
            rw [hpc, hps, hpe] at hcode
            dsimp only at hcode
            by_cases hgt : sv > ev
            · rw [if_pos hgt] at hcode
              cases hcode
              omega
            · rw [if_neg hgt] at hcode
              cases hcode

end PortSniffer
